import Mathlib

/-!
Verification development for the luks.go read-only LUKS unsealing library.

Bytes are modelled as `Nat` (values below 256 where it matters; the
properties proved here depend only on XOR/equality structure, which `Nat`
carries faithfully).  Byte slices are `List Nat`.  External cryptographic
primitives (SHA-family hashes, HMAC, Argon2, base64, JSON decoding) are not
code of this library: they enter as explicit function parameters, together
with the length facts the library relies on (for example that a hash named
in the registry produces digests of the registry's advertised size).
PBKDF2, whose block structure the library's slicing behaviour depends on,
is embedded concretely from golang.org/x/crypto/pbkdf2.
-/

/-- Big-endian 4-byte encoding of a 32-bit value (`binary.BigEndian.PutUint32`). -/
def be32 (n : Nat) : List Nat :=
  [n / 16777216 % 256, n / 65536 % 256, n / 256 % 256, n % 256]

/-- Go `bytes.Equal`: true iff both byte slices have the same length and contents. -/
def bytesEqual : List Nat → List Nat → Bool
  | [], [] => true
  | a :: as, b :: bs => a == b && bytesEqual as bs
  | _, _ => false

/-- Byte-probe cost model of the comparison performed by `bytes.Equal`
(runtime `memequal`): walks both slices from the front and stops at the
first differing byte.  Returns (number of byte positions inspected, result). -/
def bytesEqualSteps : List Nat → List Nat → Nat × Bool
  | [], [] => (0, true)
  | a :: as, b :: bs =>
      if a == b then
        let r := bytesEqualSteps as bs
        (r.1 + 1, r.2)
      else (1, false)
  | _, _ => (0, false)

theorem bytesEqual_eq_true_iff (a b : List Nat) : bytesEqual a b = true ↔ a = b := by
  induction a generalizing b with
  | nil => cases b <;> simp [bytesEqual]
  | cons x xs ih =>
      cases b with
      | nil => simp [bytesEqual]
      | cons y ys => simp [bytesEqual, ih]

theorem bytesEqualSteps_snd (a b : List Nat) : (bytesEqualSteps a b).2 = bytesEqual a b := by
  induction a generalizing b with
  | nil => cases b <;> simp [bytesEqual, bytesEqualSteps]
  | cons x xs ih =>
      cases b with
      | nil => simp [bytesEqual, bytesEqualSteps]
      | cons y ys =>
          by_cases h : x == y <;> simp [bytesEqual, bytesEqualSteps, h, ih]

/-- The function `xorSlices(src1, src2, dest)` from the anti-forensic code; all three
slices have the same length at every call site, so the functional value is
the pointwise XOR. -/
def xorSlices (src1 src2 : List Nat) : List Nat :=
  List.zipWith (fun a b => a ^^^ b) src1 src2

theorem xorSlices_length (a b : List Nat) :
    (xorSlices a b).length = min a.length b.length := by
  simp [xorSlices]

theorem xorSlices_xorSlices_cancel (s b : List Nat) (h : s.length = b.length) :
    xorSlices (xorSlices s b) b = s := by
  induction s generalizing b with
  | nil => simp [xorSlices]
  | cons x xs ih =>
      cases b with
      | nil => simp at h
      | cons y ys =>
          have h2 : xs.length = ys.length := by simpa using h
          show ((x ^^^ y) ^^^ y) :: xorSlices (xorSlices xs ys) ys = x :: xs
          rw [Nat.xor_assoc, Nat.xor_self, Nat.xor_zero, ih ys h2]

/-- The function `hashBuffer(src, h, iv, result)`: appends `h(BE32(iv) ‖ src)` to `result`
(`h.Sum(result)` appends the digest). -/
def hashBuffer (h : List Nat → List Nat) (src : List Nat) (iv : Nat)
    (result : List Nat) : List Nat :=
  result ++ h (be32 iv ++ src)

/-- The function `diffuse(src, h)` from the anti-forensic code: hash full
digest-size chunks of `src` with a big-endian chunk counter prepended, hash
the remainder (if any) the same way, and truncate the concatenation to
`len(src)` bytes.  `D` is the hash's digest size (`h.Size()`). -/
def diffuse (h : List Nat → List Nat) (D : Nat) (src : List Nat) : List Nat :=
  let sliceSize := src.length
  let full := (List.range (sliceSize / D)).foldl
    (fun result i => hashBuffer h ((src.drop (i * D)).take D) i result) []
  if sliceSize % D = 0 then full
  else (hashBuffer h (src.drop (sliceSize - sliceSize % D)) (sliceSize / D) full).take sliceSize

/-- The diffuse chain shared by `afSplit` and `afMerge`: starting from
`zeros(blockSize)`, fold the first `k` stripes of `material` through
`buffer ← diffuse(stripe XOR buffer)`. -/
def afFold (h : List Nat → List Nat) (D : Nat) (material : List Nat)
    (blockSize k : Nat) : List Nat :=
  (List.range k).foldl
    (fun buffer i => diffuse h D (xorSlices ((material.drop (blockSize * i)).take blockSize) buffer))
    (List.replicate blockSize 0)

/-- The function `afSplit(src, blockNum, h)`.  The `blockNum-1` random stripes drawn from
the CSPRNG inside the Go function are passed in explicitly as `rnd`
(`len(rnd) = (blockNum-1)·len(src)`); the function's output is those stripes
followed by `src XOR (fold of the stripes through the diffuse chain)`. -/
def afSplit (h : List Nat → List Nat) (D : Nat) (rnd src : List Nat)
    (blockNum : Nat) : List Nat :=
  rnd ++ xorSlices src (afFold h D rnd src.length (blockNum - 1))

/-- The function `afMerge(src, blockSize, blockNum, h)`: rejects a short input buffer,
folds the first `blockNum-1` stripes through the diffuse chain, and XORs the
result with the last stripe. -/
def afMerge (h : List Nat → List Nat) (D : Nat) (src : List Nat)
    (blockSize blockNum : Nat) : Option (List Nat) :=
  if blockSize * blockNum > src.length then none
  else some (xorSlices ((src.drop (blockSize * (blockNum - 1))).take blockSize)
    (afFold h D src blockSize (blockNum - 1)))

theorem foldl_hashBuffer_eq_flatten (h : List Nat → List Nat) (g : Nat → List Nat) :
    ∀ (k : Nat) (acc : List Nat),
      (List.range k).foldl (fun result i => hashBuffer h (g i) i result) acc
        = acc ++ ((List.range k).map (fun i => h (be32 i ++ g i))).flatten := by
  intro k
  induction k with
  | zero => simp
  | succ k ih =>
      intro acc
      rw [List.range_succ, List.foldl_append, List.map_append, List.flatten_append, ih]
      simp [hashBuffer]

theorem flatten_map_range_length (f : Nat → List Nat) (D : Nat)
    (hf : ∀ i, (f i).length = D) :
    ∀ k : Nat, ((List.range k).map f).flatten.length = k * D := by
  intro k
  induction k with
  | zero => simp
  | succ k ih =>
      rw [List.range_succ, List.map_append, List.flatten_append]
      simp [ih, hf, Nat.succ_mul]

theorem diffuse_length (h : List Nat → List Nat) (D : Nat) (src : List Nat)
    (hD : 1 ≤ D) (hh : ∀ x, (h x).length = D) :
    (diffuse h D src).length = src.length := by
  have hmod := Nat.div_add_mod src.length D
  have hlt : src.length % D < D := Nat.mod_lt _ (by omega)
  have hcomm : src.length / D * D = D * (src.length / D) := Nat.mul_comm ..
  simp only [diffuse]
  rw [foldl_hashBuffer_eq_flatten]
  by_cases hm : src.length % D = 0
  · rw [if_pos hm]
    simp only [List.nil_append]
    rw [flatten_map_range_length _ D (fun i => hh _)]
    omega
  · rw [if_neg hm]
    simp only [hashBuffer, List.nil_append, List.length_take, List.length_append]
    rw [flatten_map_range_length _ D (fun i => hh _), hh]
    omega

theorem afFold_stripe_length (material : List Nat) (blockSize i : Nat)
    (hle : blockSize * (i + 1) ≤ material.length) :
    ((material.drop (blockSize * i)).take blockSize).length = blockSize := by
  simp only [List.length_take, List.length_drop]
  have : blockSize * (i + 1) = blockSize * i + blockSize := by ring
  omega

theorem afFold_length (h : List Nat → List Nat) (D : Nat) (material : List Nat)
    (blockSize : Nat) (hD : 1 ≤ D) (hh : ∀ x, (h x).length = D) :
    ∀ k : Nat, blockSize * k ≤ material.length →
      (afFold h D material blockSize k).length = blockSize := by
  intro k
  induction k with
  | zero => intro _; simp [afFold]
  | succ k ih =>
      intro hk
      have hk' : blockSize * k ≤ material.length := by
        have : blockSize * (k + 1) = blockSize * k + blockSize := by ring
        omega
      simp only [afFold, List.range_succ, List.foldl_append, List.foldl_cons, List.foldl_nil]
      rw [diffuse_length _ _ _ hD hh, xorSlices_length,
        afFold_stripe_length _ _ _ hk]
      have := ih hk'
      simp only [afFold] at this
      rw [this]
      omega

theorem afFold_append (h : List Nat → List Nat) (D : Nat) (rnd t : List Nat)
    (blockSize : Nat) :
    ∀ k : Nat, blockSize * k ≤ rnd.length →
      afFold h D (rnd ++ t) blockSize k = afFold h D rnd blockSize k := by
  intro k
  induction k with
  | zero => intro _; simp [afFold]
  | succ k ih =>
      intro hk
      have hmul : blockSize * (k + 1) = blockSize * k + blockSize := by ring
      have hk' : blockSize * k ≤ rnd.length := by omega
      simp only [afFold, List.range_succ, List.foldl_append, List.foldl_cons, List.foldl_nil]
      have hstripe : ((rnd ++ t).drop (blockSize * k)).take blockSize
          = (rnd.drop (blockSize * k)).take blockSize := by
        rw [List.drop_append_of_le_length hk',
          List.take_append_of_le_length (by simp [List.length_drop]; omega)]
      have hfold := ih hk'
      simp only [afFold] at hfold
      rw [hstripe, hfold]

/-- C6: for every source byte string with at least one byte, every stripe
count N ≥ 2, every digest-size-uniform hash, and every choice of the N−1
random stripes drawn during splitting, merging the split output recovers the
source: `afMerge (afSplit s) |s| N = some s`. -/
theorem afMerge_afSplit_roundtrip (h : List Nat → List Nat) (D : Nat)
    (s rnd : List Nat) (N : Nat)
    (hh : ∀ x, (h x).length = D) (hD : 1 ≤ D)
    (hs : 1 ≤ s.length) (hN : 2 ≤ N)
    (hr : rnd.length = (N - 1) * s.length) :
    afMerge h D (afSplit h D rnd s N) s.length N = some s := by
  have hfoldmat : s.length * (N - 1) ≤ rnd.length := by
    rw [hr, Nat.mul_comm]
  have hbufLen : (afFold h D rnd s.length (N - 1)).length = s.length :=
    afFold_length h D rnd s.length hD hh (N - 1) hfoldmat
  have hlastLen : (xorSlices s (afFold h D rnd s.length (N - 1))).length = s.length := by
    rw [xorSlices_length, hbufLen]; omega
  have hsplitLen : (afSplit h D rnd s N).length = s.length * N := by
    simp only [afSplit, List.length_append, hr, hlastLen]
    have hNsucc : N - 1 + 1 = N := by omega
    calc (N - 1) * s.length + s.length = (N - 1 + 1) * s.length := by rw [Nat.succ_mul]
    _ = s.length * N := by rw [hNsucc, Nat.mul_comm]
  have hidx : s.length * (N - 1) = rnd.length := by rw [hr, Nat.mul_comm]
  simp only [afMerge, hsplitLen, gt_iff_lt, Nat.lt_irrefl, if_false]
  simp only [afSplit]
  rw [hidx, List.drop_left, List.take_of_length_le (le_of_eq hlastLen),
    afFold_append h D rnd _ s.length (N - 1) hfoldmat,
    xorSlices_xorSlices_cancel _ _ hbufLen.symm]

/-- Closed witness for the round-trip theorem at a concrete input. -/
theorem afMerge_afSplit_roundtrip_witness :
    afMerge (fun _ => [9]) 1 (afSplit (fun _ => [9]) 1 [3] [5] 2) 1 2 = some [5] :=
  afMerge_afSplit_roundtrip (fun _ => [9]) 1 [5] [3] 2
    (fun _ => rfl) (by decide) (by decide) (by decide) (by decide)

/-- The specification's description of `diffuse`: concatenate, for each
chunk index `k` up to the number of digest-size chunks (counting a final
partial chunk), the hash of `BE32(k)` followed by the k-th chunk of the
input (of size `D`, or the remainder), and truncate the concatenation to
the input's length. -/
def diffuseSpec (h : List Nat → List Nat) (D : Nat) (src : List Nat) : List Nat :=
  (((List.range ((src.length + D - 1) / D)).map
    (fun k => h (be32 k ++ (src.drop (k * D)).take D))).flatten).take src.length

theorem diffuse_eq_diffuseSpec (h : List Nat → List Nat) (D : Nat) (src : List Nat)
    (hD : 1 ≤ D) (hh : ∀ x, (h x).length = D) :
    diffuse h D src = diffuseSpec h D src := by
  have hmod := Nat.div_add_mod src.length D
  have hlt : src.length % D < D := Nat.mod_lt _ (by omega)
  have hcomm : src.length / D * D = D * (src.length / D) := Nat.mul_comm ..
  simp only [diffuse, diffuseSpec]
  rw [foldl_hashBuffer_eq_flatten]
  by_cases hm : src.length % D = 0
  · rw [if_pos hm]
    have hceil : (src.length + D - 1) / D = src.length / D := by
      rw [show src.length + D - 1 = D * (src.length / D) + (D - 1) by omega,
        Nat.mul_add_div (by omega)]
      simp [Nat.div_eq_of_lt (by omega : D - 1 < D)]
    rw [hceil, List.nil_append,
      List.take_of_length_le (by
        rw [flatten_map_range_length _ D (fun i => hh _)]
        omega)]
  · rw [if_neg hm]
    have hceil : (src.length + D - 1) / D = src.length / D + 1 := by
      rw [show src.length + D - 1 = D * (src.length / D + 1) + (src.length % D - 1) by
          ring_nf; omega,
        Nat.mul_add_div (by omega)]
      simp [Nat.div_eq_of_lt (by omega : src.length % D - 1 < D)]
    have hidx2 : src.length - src.length % D = src.length / D * D := by omega
    have hlast : (src.drop (src.length / D * D)).take D = src.drop (src.length / D * D) :=
      List.take_of_length_le (by rw [List.length_drop]; omega)
    rw [hceil, List.range_succ, List.map_append, List.flatten_append]
    simp only [List.map_cons, List.map_nil, List.flatten_cons, List.flatten_nil,
      List.append_nil, hashBuffer, List.nil_append]
    rw [hlast, hidx2]

/-- The specification's `afMerge` recurrence: start from a zero buffer of
the block size, fold the first `N-1` stripes through
`buffer ← diffuse(buffer XOR stripe_i)`, and return
`buffer XOR material[(N-1)·B..N·B]`, with `diffuse` as described by the
specification. -/
def afMergeSpec (h : List Nat → List Nat) (D : Nat) (material : List Nat)
    (B N : Nat) : List Nat :=
  let buffer := (List.range (N - 1)).foldl
    (fun buffer i => diffuseSpec h D (xorSlices buffer ((material.drop (i * B)).take B)))
    (List.replicate B 0)
  xorSlices buffer ((material.drop ((N - 1) * B)).take B)

theorem xorSlices_comm (a b : List Nat) : xorSlices a b = xorSlices b a :=
  List.zipWith_comm_of_comm _ (fun x y => Nat.xor_comm x y) a b

/-- C7: for a material buffer of length at least `B·N`, block size `B ≥ 1`,
stripe count `N ≥ 2` and a digest-size-uniform hash, `afMerge` computes
exactly the specification's recurrence: fold the first `N−1` stripes through
`buffer ← diffuse(buffer XOR stripe)`, then XOR with the last stripe, with
`diffuse` the chunk-wise hash concatenation truncated to the block size. -/
theorem afMerge_eq_afMergeSpec (h : List Nat → List Nat) (D : Nat)
    (material : List Nat) (B N : Nat)
    (hD : 1 ≤ D) (hh : ∀ x, (h x).length = D)
    (hB : 1 ≤ B) (hN : 2 ≤ N) (hlen : B * N ≤ material.length) :
    afMerge h D material B N = some (afMergeSpec h D material B N) := by
  have hfold : (List.range (N - 1)).foldl
      (fun buffer i => diffuse h D (xorSlices ((material.drop (B * i)).take B) buffer))
      (List.replicate B 0)
      = (List.range (N - 1)).foldl
        (fun buffer i => diffuseSpec h D (xorSlices buffer ((material.drop (i * B)).take B)))
        (List.replicate B 0) := by
    refine List.foldl_ext _ _ _ (fun b i _ => ?_)
    rw [diffuse_eq_diffuseSpec _ _ _ hD hh, xorSlices_comm, Nat.mul_comm B i]
  unfold afMerge
  rw [if_neg (by omega : ¬ (B * N > material.length))]
  simp only [afMergeSpec, afFold]
  rw [Nat.mul_comm B (N - 1), xorSlices_comm, hfold]

/-- Closed witness for the merge-recurrence theorem at a concrete input. -/
theorem afMerge_eq_afMergeSpec_witness :
    afMerge (fun _ => [7]) 1 [1, 2, 3, 4] 2 2
      = some (afMergeSpec (fun _ => [7]) 1 [1, 2, 3, 4] 2 2) :=
  afMerge_eq_afMergeSpec (fun _ => [7]) 1 [1, 2, 3, 4] 2 2
    (by decide) (fun _ => rfl) (by decide) (by decide) (by decide)

/-- Go `bytes.IndexByte(buff, 0)`: index of the first NUL byte, `none` when
absent (Go returns -1). -/
def indexByte0 : List Nat → Option Nat
  | [] => none
  | 0 :: _ => some 0
  | _ :: rest => (indexByte0 rest).map (· + 1)

/-- The function `fixedArrayToString`: interpret a NUL-padded fixed byte array as the
string of bytes before the first NUL (the whole array when no NUL occurs). -/
def fixedArrayToString (buff : List Nat) : String :=
  match indexByte0 buff with
  | some idx => String.mk ((buff.take idx).map Char.ofNat)
  | none => String.mk (buff.map Char.ofNat)

/-- The function `isPowerOfTwo` from util.go: `x & (x-1) == 0` on unsigned integers
(true for 0 as well, exactly as the Go expression evaluates). -/
def isPowerOfTwo (x : Nat) : Bool :=
  x &&& (x - 1) == 0

/-- The digest-size half of the `getHashAlgo` primitive registry in
util.go: LUKS-standard hash name to digest size in bytes, `none` for an
unrecognized name (the Go function then returns a nil constructor).  The
constructors themselves are external crypto primitives and stay abstract. -/
def getHashAlgoSize (name : String) : Option Nat :=
  match name with
  | "sha1" => some 20
  | "sha224" => some 28
  | "sha256" => some 32
  | "sha384" => some 48
  | "sha512" => some 64
  | "sha3-224" => some 28
  | "sha3-256" => some 32
  | "sha3-384" => some 48
  | "sha3-512" => some 64
  | "ripemd160" => some 20
  | "blake2b-160" => some 20
  | "blake2b-256" => some 32
  | "blake2b-384" => some 48
  | "blake2b-512" => some 64
  | "blake2s-256" => some 32
  | _ => none

/-- The struct `keySlot` from the LUKS1 on-disk header. -/
structure keySlotV1 where
  active : Nat
  iterations : Nat
  salt : List Nat
  keyMaterialOffset : Nat
  stripes : Nat
deriving DecidableEq, Inhabited

/-- The struct `headerV1`: the parsed 592-byte big-endian LUKS1 header. -/
structure headerV1 where
  magic : List Nat
  version : Nat
  cipherName : List Nat
  cipherMode : List Nat
  hashSpec : List Nat
  payloadOffset : Nat
  keyBytes : Nat
  mkDigest : List Nat
  mkDigestSalt : List Nat
  mkDigestIter : Nat
  uuid : List Nat
  keySlots : List keySlotV1
deriving DecidableEq, Inhabited

/-- The constant `luksV1SlotEnabled = 0xAC71F3`. -/
def luksV1SlotEnabled : Nat := 0xAC71F3

/-- Outcome of the checks `deviceV1.UnsealVolume` performs before any key
derivation: either an early error, or `derive` carrying the keyslot and
hash with which `deriveLuks1AfKey` is then invoked. -/
inductive luks1PreResult where
  | errOutOfRange
  | errUnknownHash (algo : String)
  | derive (slot : keySlotV1) (algo : String) (size : Nat)
deriving DecidableEq

/-- The prefix of `deviceV1.UnsealVolume` up to (and excluding) the
`deriveLuks1AfKey` call: bounds-check the slot index against
`len(keyslots)`, fetch the slot, resolve the header's hash spec in the
registry.  This is a faithful translation of that prefix; in particular it
performs no comparison of the slot's `active` field. -/
def luks1UnsealPre (hdr : headerV1) (keyslotIdx : Int) : luks1PreResult :=
  if keyslotIdx < 0 ∨ (hdr.keySlots.length : Int) ≤ keyslotIdx then .errOutOfRange
  else
    let slot := hdr.keySlots.getD keyslotIdx.toNat default
    let algo := fixedArrayToString hdr.hashSpec
    match getHashAlgoSize algo with
    | none => .errUnknownHash algo
    | some sz => .derive slot algo sz

/-- A LUKS1 header whose 8 keyslots all carry the disabled marker 0xDEAD in
their `active` field, with a registry-recognized hash spec ("sha256"). -/
def luks1DisabledSlotHeader : headerV1 :=
  { magic := [76, 85, 75, 83, 186, 190]
    version := 1
    cipherName := [97, 101, 115] ++ List.replicate 29 0
    cipherMode := [120, 116, 115, 45, 112, 108, 97, 105, 110, 54, 52] ++ List.replicate 21 0
    hashSpec := [115, 104, 97, 50, 53, 54] ++ List.replicate 26 0
    payloadOffset := 4096
    keyBytes := 32
    mkDigest := List.replicate 20 0
    mkDigestSalt := List.replicate 32 0
    mkDigestIter := 1000
    uuid := List.replicate 40 0
    keySlots := List.replicate 8 ⟨0xDEAD, 1000, List.replicate 32 0, 8, 4000⟩ }

/-- C1 counterexample: slot 0 of this header is disabled
(`active = 0xDEAD ≠ 0xAC71F3`), yet `UnsealVolume`'s pre-derivation checks
do not fail — they hand the disabled slot straight to key derivation, so no
NoSuchSlot / SlotDisabled error is produced for a disabled slot. -/
theorem luks1UnsealPre_disabled_slot_proceeds :
    (luks1DisabledSlotHeader.keySlots.getD 0 default).active ≠ luksV1SlotEnabled ∧
    luks1UnsealPre luks1DisabledSlotHeader 0
      = .derive (luks1DisabledSlotHeader.keySlots.getD 0 default) "sha256" 32 := by
  constructor
  · decide
  · decide

/-- C1 (amended): `deviceV1.UnsealVolume` bounds-checks the slot index
against [0,8) and fails for out-of-range indices, but performs no check of
the keyslot's `active` field: for every in-range index whose header hash is
registry-recognized it proceeds to key derivation, enabled or not. -/
theorem luks1UnsealPre_bounds_only (hdr : headerV1) (idx : Int) (sz : Nat)
    (hslots : hdr.keySlots.length = 8) :
    ((idx < 0 ∨ 8 ≤ idx) → luks1UnsealPre hdr idx = .errOutOfRange) ∧
    (0 ≤ idx → idx < 8 →
      getHashAlgoSize (fixedArrayToString hdr.hashSpec) = some sz →
      luks1UnsealPre hdr idx
        = .derive (hdr.keySlots.getD idx.toNat default) (fixedArrayToString hdr.hashSpec) sz) := by
  constructor
  · intro hrange
    simp only [luks1UnsealPre, hslots]
    rw [if_pos (by omega)]
  · intro h0 h8 hreg
    simp only [luks1UnsealPre, hslots]
    rw [if_neg (by omega)]
    simp [hreg]

/-- Closed witness: an out-of-range slot index is rejected. -/
theorem luks1UnsealPre_bounds_only_witness :
    luks1UnsealPre luks1DisabledSlotHeader 9 = .errOutOfRange :=
  (luks1UnsealPre_bounds_only luks1DisabledSlotHeader 9 32 (by decide)).1 (by omega)

/-- Inner loop of `pbkdf2.Key` (`for n := 2; n <= iter; n++`), run `k` times:
`U ← prf(U); T ← T XOR U`. -/
def pbkdf2Inner (prf : List Nat → List Nat) : Nat → List Nat → List Nat → List Nat
  | 0, T, _ => T
  | k + 1, T, U =>
      let U2 := prf U
      pbkdf2Inner prf k (List.zipWith (fun a b => a ^^^ b) T U2) U2

/-- One output block `T_block` of `pbkdf2.Key`: `U₁ = prf(salt ‖ BE32(block))`,
then `iter-1` rounds of the inner loop. `prf` is the HMAC already keyed with
the password. -/
def pbkdf2Block (prf : List Nat → List Nat) (salt : List Nat) (iter block : Nat) : List Nat :=
  let U1 := prf (salt ++ be32 block)
  pbkdf2Inner prf (iter - 1) U1 U1

/-- The full backing array `dk` built by `pbkdf2.Key`'s block loop
(`numBlocks = ceil(keyLen/hashLen)` blocks of `hashLen` bytes each); the
function's return value is `dk[:keyLen]`, a slice whose capacity is this
array's length. -/
def pbkdf2Full (prf : List Nat → List Nat) (hashLen : Nat) (salt : List Nat)
    (iter keyLen : Nat) : List Nat :=
  (List.range ((keyLen + hashLen - 1) / hashLen)).foldl
    (fun dk block => dk ++ pbkdf2Block prf salt iter (block + 1)) []

/-- Go `pbkdf2.Key(password, salt, iter, keyLen, h)` with `prf = HMAC(h, password)`
and `hashLen = prf.Size()`. -/
def pbkdf2Key (prf : List Nat → List Nat) (hashLen : Nat) (salt : List Nat)
    (iter keyLen : Nat) : List Nat :=
  (pbkdf2Full prf hashLen salt iter keyLen).take keyLen

theorem foldl_append_eq_flatten (f : Nat → List Nat) :
    ∀ (k : Nat) (acc : List Nat),
      (List.range k).foldl (fun dk b => dk ++ f b) acc
        = acc ++ ((List.range k).map f).flatten := by
  intro k
  induction k with
  | zero => simp
  | succ k ih =>
      intro acc
      rw [List.range_succ, List.foldl_append, List.map_append, List.flatten_append, ih]
      simp

theorem pbkdf2Inner_length (prf : List Nat → List Nat) (hashLen : Nat)
    (hprf : ∀ x, (prf x).length = hashLen) :
    ∀ (k : Nat) (T U : List Nat), T.length = hashLen →
      (pbkdf2Inner prf k T U).length = hashLen := by
  intro k
  induction k with
  | zero => intro T U hT; exact hT
  | succ k ih =>
      intro T U hT
      simp only [pbkdf2Inner]
      exact ih _ _ (by simp [hT, hprf])

theorem pbkdf2Block_length (prf : List Nat → List Nat) (hashLen : Nat)
    (salt : List Nat) (iter block : Nat)
    (hprf : ∀ x, (prf x).length = hashLen) :
    (pbkdf2Block prf salt iter block).length = hashLen :=
  pbkdf2Inner_length prf hashLen hprf _ _ _ (hprf _)

theorem pbkdf2Full_length (prf : List Nat → List Nat) (hashLen : Nat)
    (salt : List Nat) (iter keyLen : Nat)
    (hprf : ∀ x, (prf x).length = hashLen) :
    (pbkdf2Full prf hashLen salt iter keyLen).length
      = (keyLen + hashLen - 1) / hashLen * hashLen := by
  unfold pbkdf2Full
  rw [foldl_append_eq_flatten]
  simp only [List.nil_append]
  exact flatten_map_range_length _ _ (fun i => pbkdf2Block_length prf hashLen salt iter _ hprf) _

theorem ceil_div_mul_ge (a b : Nat) (hb : 1 ≤ b) : a ≤ (a + b - 1) / b * b := by
  rw [Nat.mul_comm]
  have h1 := Nat.div_add_mod (a + b - 1) b
  have h2 := Nat.mod_lt (a + b - 1) (by omega : 0 < b)
  omega

theorem pbkdf2Key_length (prf : List Nat → List Nat) (hashLen : Nat)
    (salt : List Nat) (iter keyLen : Nat)
    (hl : 1 ≤ hashLen) (hprf : ∀ x, (prf x).length = hashLen) :
    (pbkdf2Key prf hashLen salt iter keyLen).length = keyLen := by
  unfold pbkdf2Key
  rw [List.length_take, pbkdf2Full_length prf hashLen salt iter keyLen hprf]
  have := ceil_div_mul_ge keyLen hashLen hl
  omega

/-- The RFC 2898 U-sequence for one PBKDF2 block:
`U₁ = PRF(salt ‖ BE32(block))`, `U_{j+1} = PRF(U_j)` (0-indexed here). -/
def pbkdf2USeq (prf : List Nat → List Nat) (salt : List Nat) (block : Nat) : Nat → List Nat
  | 0 => prf (salt ++ be32 block)
  | j + 1 => prf (pbkdf2USeq prf salt block j)

/-- The specification's block value `T = U₁ XOR U₂ XOR … XOR U_iter`. -/
def pbkdf2SpecBlock (prf : List Nat → List Nat) (salt : List Nat)
    (iter block : Nat) : List Nat :=
  (List.range (iter - 1)).foldl
    (fun T j => List.zipWith (fun a b => a ^^^ b) T (pbkdf2USeq prf salt block (j + 1)))
    (pbkdf2USeq prf salt block 0)

/-- The specification's `PBKDF2(password, salt, iter, keyLen, H)`:
first `keyLen` bytes of `T₁ ‖ T₂ ‖ …` over `ceil(keyLen/hashLen)` blocks. -/
def pbkdf2Spec (prf : List Nat → List Nat) (hashLen : Nat) (salt : List Nat)
    (iter keyLen : Nat) : List Nat :=
  (((List.range ((keyLen + hashLen - 1) / hashLen)).map
    (fun i => pbkdf2SpecBlock prf salt iter (i + 1))).flatten).take keyLen

theorem pbkdf2Inner_eq_fold (prf : List Nat → List Nat) (salt : List Nat) (block : Nat) :
    ∀ (k j : Nat) (T : List Nat),
      pbkdf2Inner prf k T (pbkdf2USeq prf salt block j)
        = (List.range k).foldl
            (fun T i => List.zipWith (fun a b => a ^^^ b) T (pbkdf2USeq prf salt block (j + 1 + i)))
            T := by
  intro k
  induction k with
  | zero => intro j T; simp [pbkdf2Inner]
  | succ k ih =>
      intro j T
      show pbkdf2Inner prf k
          (List.zipWith (fun a b => a ^^^ b) T (prf (pbkdf2USeq prf salt block j)))
          (prf (pbkdf2USeq prf salt block j)) = _
      have hU : prf (pbkdf2USeq prf salt block j) = pbkdf2USeq prf salt block (j + 1) := rfl
      rw [hU, ih (j + 1)]
      rw [List.range_succ_eq_map, List.foldl_cons, List.foldl_map]
      have hbase : j + 1 + 0 = j + 1 := by omega
      rw [hbase]
      exact List.foldl_ext _ _ _ (fun b i _ => by
        rw [show j + 1 + 1 + i = j + 1 + i.succ by omega])

theorem pbkdf2Block_eq_spec (prf : List Nat → List Nat) (salt : List Nat)
    (iter block : Nat) :
    pbkdf2Block prf salt iter block = pbkdf2SpecBlock prf salt iter block := by
  show pbkdf2Inner prf (iter - 1) (pbkdf2USeq prf salt block 0) (pbkdf2USeq prf salt block 0)
    = pbkdf2SpecBlock prf salt iter block
  rw [pbkdf2Inner_eq_fold prf salt block (iter - 1) 0]
  exact List.foldl_ext _ _ _ (fun b i _ => by rw [show 0 + 1 + i = i + 1 by omega])

theorem pbkdf2Key_eq_spec (prf : List Nat → List Nat) (hashLen : Nat)
    (salt : List Nat) (iter keyLen : Nat) :
    pbkdf2Key prf hashLen salt iter keyLen = pbkdf2Spec prf hashLen salt iter keyLen := by
  unfold pbkdf2Key pbkdf2Full pbkdf2Spec
  rw [foldl_append_eq_flatten]
  simp only [List.nil_append, pbkdf2Block_eq_spec]

/-- The `kdf` record of a LUKS2 keyslot's JSON metadata. -/
structure kdfRec where
  type : String
  salt : String
  hash : String
  iterations : Nat
  time : Nat
  memory : Nat
  cpus : Nat
deriving DecidableEq, Inhabited

/-- Errors of `deriveLuks2AfKey`. -/
inductive deriveErr where
  | badSalt
  | unknownHash (keyslotIdx : Int) (hash : String)
  | unknownKdf (kdfType : String)
deriving DecidableEq

/-- The function `deriveLuks2AfKey` from luks2.go: base64-decode the salt, then dispatch
on `kdf.type`; the `pbkdf2` arm resolves the hash through its own inline
switch over exactly "sha256" and "sha512" (not through the `getHashAlgo`
registry).  `b64` is the external base64 decoder; `hmacSha256`/`hmacSha512`
are the HMAC primitives keyed by their first argument; `argon2Key` and
`argon2IDKey` are the external Argon2 primitives
(password, salt, time, memory, cpus, keyLen). -/
def deriveLuks2AfKey (b64 : String → Option (List Nat))
    (hmacSha256 hmacSha512 : List Nat → List Nat → List Nat)
    (argon2Key argon2IDKey : List Nat → List Nat → Nat → Nat → Nat → Nat → List Nat)
    (kdf : kdfRec) (keyslotIdx : Int) (passphrase : List Nat) (keyLength : Nat) :
    Except deriveErr (List Nat) :=
  match b64 kdf.salt with
  | none => .error .badSalt
  | some salt =>
    if kdf.type = "pbkdf2" then
      if kdf.hash = "sha256" then
        .ok (pbkdf2Key (hmacSha256 passphrase) 32 salt kdf.iterations keyLength)
      else if kdf.hash = "sha512" then
        .ok (pbkdf2Key (hmacSha512 passphrase) 64 salt kdf.iterations keyLength)
      else .error (.unknownHash keyslotIdx kdf.hash)
    else if kdf.type = "argon2i" then
      .ok (argon2Key passphrase salt kdf.time kdf.memory kdf.cpus keyLength)
    else if kdf.type = "argon2id" then
      .ok (argon2IDKey passphrase salt kdf.time kdf.memory kdf.cpus keyLength)
    else .error (.unknownKdf kdf.type)

/-- C2 counterexample: "sha1" is recognized by the §4.1 registry
(`getHashAlgo` yields digest size 20), yet a pbkdf2 keyslot whose
`kdf.hash` is "sha1" makes `deriveLuks2AfKey` fail with an unknown-hash
error instead of succeeding — the KDF driver does not consult the registry. -/
theorem deriveLuks2AfKey_sha1_rejected :
    getHashAlgoSize "sha1" = some 20 ∧
    deriveLuks2AfKey (fun _ => some (List.replicate 32 0))
      (fun _ _ => List.replicate 32 0) (fun _ _ => List.replicate 64 0)
      (fun _ _ _ _ _ _ => []) (fun _ _ _ _ _ _ => [])
      { type := "pbkdf2", salt := "QUJDRA==", hash := "sha1",
        iterations := 1000, time := 0, memory := 0, cpus := 0 }
      0 [112, 119, 100] 32
      = .error (.unknownHash 0 "sha1") := by
  constructor
  · rfl
  · rfl

/-- C2 (amended): for a pbkdf2 keyslot whose salt decodes, `deriveAfKey`
resolves the hash through the KDF driver's inline switch — exactly "sha256"
and "sha512", not every registry name — and for those hashes returns the RFC
2898 value `PBKDF2(passphrase, decoded salt, kdf.iterations, L, H)`, whose
length is exactly the requested `L`.  The embedding is a pure function of
`(kdf_params, passphrase, L)` and the primitives, so the result is
deterministic in those inputs. -/
theorem deriveLuks2AfKey_pbkdf2_correct (b64 : String → Option (List Nat))
    (hmacSha256 hmacSha512 : List Nat → List Nat → List Nat)
    (argon2Key argon2IDKey : List Nat → List Nat → Nat → Nat → Nat → Nat → List Nat)
    (kdf : kdfRec) (idx : Int) (pass : List Nat) (L : Nat) (salt : List Nat)
    (hsalt : b64 kdf.salt = some salt) (htype : kdf.type = "pbkdf2")
    (h256 : ∀ k m, (hmacSha256 k m).length = 32)
    (h512 : ∀ k m, (hmacSha512 k m).length = 64) :
    (kdf.hash = "sha256" →
      deriveLuks2AfKey b64 hmacSha256 hmacSha512 argon2Key argon2IDKey kdf idx pass L
        = .ok (pbkdf2Spec (hmacSha256 pass) 32 salt kdf.iterations L)) ∧
    (kdf.hash = "sha512" →
      deriveLuks2AfKey b64 hmacSha256 hmacSha512 argon2Key argon2IDKey kdf idx pass L
        = .ok (pbkdf2Spec (hmacSha512 pass) 64 salt kdf.iterations L)) ∧
    (∀ r, deriveLuks2AfKey b64 hmacSha256 hmacSha512 argon2Key argon2IDKey kdf idx pass L
        = .ok r →
      (kdf.hash = "sha256" ∨ kdf.hash = "sha512") ∧ r.length = L) := by
  refine ⟨?_, ?_, ?_⟩
  · intro hh
    simp only [deriveLuks2AfKey, hsalt]
    rw [if_pos htype, if_pos hh, pbkdf2Key_eq_spec]
  · intro hh
    have hne : ¬ kdf.hash = "sha256" := by
      intro habs; rw [habs] at hh; exact absurd hh (by decide)
    simp only [deriveLuks2AfKey, hsalt]
    rw [if_pos htype, if_neg hne, if_pos hh, pbkdf2Key_eq_spec]
  · intro r hr
    simp only [deriveLuks2AfKey, hsalt] at hr
    rw [if_pos htype] at hr
    by_cases hh1 : kdf.hash = "sha256"
    · rw [if_pos hh1] at hr
      refine ⟨Or.inl hh1, ?_⟩
      cases hr
      exact pbkdf2Key_length _ 32 _ _ _ (by omega) (fun x => h256 pass x)
    · rw [if_neg hh1] at hr
      by_cases hh2 : kdf.hash = "sha512"
      · rw [if_pos hh2] at hr
        refine ⟨Or.inr hh2, ?_⟩
        cases hr
        exact pbkdf2Key_length _ 64 _ _ _ (by omega) (fun x => h512 pass x)
      · rw [if_neg hh2] at hr
        cases hr

/-- Closed witness for the pbkdf2 KDF-driver theorem: a concrete sha256
keyslot derives a 4-byte AF key equal to the spec formula. -/
theorem deriveLuks2AfKey_pbkdf2_correct_witness :
    deriveLuks2AfKey (fun _ => some [1, 2]) (fun _ _ => List.replicate 32 5)
      (fun _ _ => List.replicate 64 6) (fun _ _ _ _ _ _ => []) (fun _ _ _ _ _ _ => [])
      { type := "pbkdf2", salt := "AQI=", hash := "sha256",
        iterations := 2, time := 0, memory := 0, cpus := 0 }
      0 [112] 4
      = .ok (pbkdf2Spec ((fun _ _ => List.replicate 32 5) [112]) 32 [1, 2] 2 4) :=
  (deriveLuks2AfKey_pbkdf2_correct (fun _ => some [1, 2]) (fun _ _ => List.replicate 32 5)
    (fun _ _ => List.replicate 64 6) (fun _ _ _ _ _ _ => []) (fun _ _ _ _ _ _ => [])
    { type := "pbkdf2", salt := "AQI=", hash := "sha256",
      iterations := 2, time := 0, memory := 0, cpus := 0 }
    0 [112] 4 [1, 2] rfl rfl (fun _ _ => rfl) (fun _ _ => rfl)).1 rfl

/-- Modelled from the spec: the LUKS2 JSON keyslot record (the current
json_metadata.go declaration is not among the provided sources; the spec
gives `priority` as an optional integer — 0 ignore, 1 normal, 2 high,
absent ⇒ normal — which matches the `*int` the Slots code dereferences).
Only the fields the verified operations consult are carried. -/
structure keyslotV2 where
  type : String
  keySize : Nat
  priority : Option Int
deriving DecidableEq, Inhabited

/-- The method `deviceV2.Slots()`: one pass over the keyslot map (`for i, k := range
d.meta.Keyslots`), appending ids with priority 2 to `highPrio`, ids with
absent or priority-1 to `normPrio`, skipping the rest, and returning
`highPrio ++ normPrio`.  Go map iteration order is unspecified, so the
keyslot map is modelled as the association list of its entries in whatever
order an iteration presents them. -/
def slotsV2 (keyslots : List (Nat × keyslotV2)) : List Nat :=
  let pair := keyslots.foldl
    (fun (acc : List Nat × List Nat) kv =>
      match kv.2.priority with
      | some p => if p = 2 then (acc.1 ++ [kv.1], acc.2)
                  else if p = 1 then (acc.1, acc.2 ++ [kv.1])
                  else acc
      | none => (acc.1, acc.2 ++ [kv.1]))
    ([], [])
  pair.1 ++ pair.2

/-- The high-priority ids in iteration order. -/
def slotsV2High (keyslots : List (Nat × keyslotV2)) : List Nat :=
  (keyslots.filter (fun kv => kv.2.priority == some 2)).map Prod.fst

/-- The normal-priority ids (absent or 1) in iteration order. -/
def slotsV2Norm (keyslots : List (Nat × keyslotV2)) : List Nat :=
  (keyslots.filter (fun kv => kv.2.priority == none || kv.2.priority == some 1)).map Prod.fst

theorem slotsV2_foldl_characterization (keyslots : List (Nat × keyslotV2)) :
    ∀ acc : List Nat × List Nat,
      keyslots.foldl
        (fun (acc : List Nat × List Nat) kv =>
          match kv.2.priority with
          | some p => if p = 2 then (acc.1 ++ [kv.1], acc.2)
                      else if p = 1 then (acc.1, acc.2 ++ [kv.1])
                      else acc
          | none => (acc.1, acc.2 ++ [kv.1]))
        acc
      = (acc.1 ++ slotsV2High keyslots, acc.2 ++ slotsV2Norm keyslots) := by
  induction keyslots with
  | nil => intro acc; simp [slotsV2High, slotsV2Norm]
  | cons hd tl ih =>
      intro acc
      simp only [List.foldl_cons]
      match hp : hd.2.priority with
      | none =>
          dsimp only
          rw [ih]
          simp [slotsV2High, slotsV2Norm, List.filter_cons, hp]
      | some p =>
          dsimp only
          by_cases h2 : p = 2
          · subst h2
            rw [if_pos rfl, ih]
            simp [slotsV2High, slotsV2Norm, List.filter_cons, hp]
          · by_cases h1 : p = 1
            · subst h1
              rw [if_neg (by omega), if_pos rfl, ih]
              simp [slotsV2High, slotsV2Norm, List.filter_cons, hp]
            · rw [if_neg h2, if_neg h1, ih]
              have hne2 : (hd.2.priority == some 2) = false := by
                simp [hp, h2]
              have hne1 : (hd.2.priority == none || hd.2.priority == some 1) = false := by
                simp [hp, h1]
              simp [slotsV2High, slotsV2Norm, List.filter_cons, hne2, hne1]

theorem nodup_keys_entry_unique (keyslots : List (Nat × keyslotV2))
    (hnd : (keyslots.map Prod.fst).Nodup) :
    ∀ a b, a ∈ keyslots → b ∈ keyslots → a.1 = b.1 → a = b := by
  induction keyslots with
  | nil => intro a b ha; cases ha
  | cons hd tl ih =>
      have hnd' := hnd
      rw [List.map_cons, List.nodup_cons] at hnd'
      intro a b ha hb hab
      cases ha with
      | head =>
          cases hb with
          | head => rfl
          | tail _ hbt =>
              exact absurd (hab ▸ List.mem_map_of_mem Prod.fst hbt) hnd'.1
      | tail _ hat =>
          cases hb with
          | head => exact absurd (hab ▸ List.mem_map_of_mem Prod.fst hat) hnd'.1
          | tail _ hbt => exact ih hnd'.2 a b hat hbt hab

/-- C3 counterexample: two normal-priority keyslots presented by map
iteration in the order 1, 0 (a legal Go map iteration order) make `Slots()`
return [1, 0] — not the ascending [0, 1] the claim requires. -/
theorem slotsV2_not_ascending :
    slotsV2 [(1, ⟨"luks2", 32, none⟩), (0, ⟨"luks2", 32, none⟩)] = [1, 0] ∧
    slotsV2 [(1, ⟨"luks2", 32, none⟩), (0, ⟨"luks2", 32, none⟩)] ≠ [0, 1] := by
  exact ⟨by decide, by decide⟩

/-- C3 (amended): `Slots()` returns exactly the priority-2 keyslot ids
followed by the absent-or-priority-1 ids — each group in map-iteration
order, which Go does not guarantee to be ascending — and a keyslot with
priority 0 never appears in the result. -/
theorem slotsV2_partition (keyslots : List (Nat × keyslotV2))
    (hnd : (keyslots.map Prod.fst).Nodup) :
    slotsV2 keyslots = slotsV2High keyslots ++ slotsV2Norm keyslots ∧
    ∀ kv ∈ keyslots, kv.2.priority = some 0 → kv.1 ∉ slotsV2 keyslots := by
  have hchar : slotsV2 keyslots = slotsV2High keyslots ++ slotsV2Norm keyslots := by
    unfold slotsV2
    rw [slotsV2_foldl_characterization]
    simp
  refine ⟨hchar, ?_⟩
  intro kv hkv hprio hmem
  rw [hchar] at hmem
  rcases List.mem_append.1 hmem with hmem | hmem
  · obtain ⟨kv2, hkv2, hfst⟩ := List.mem_map.1 hmem
    have hkv2mem : kv2 ∈ keyslots := List.mem_of_mem_filter hkv2
    have hpri := List.of_mem_filter hkv2
    have heq := nodup_keys_entry_unique keyslots hnd kv2 kv hkv2mem hkv hfst
    rw [heq, hprio] at hpri
    exact absurd hpri (by decide)
  · obtain ⟨kv2, hkv2, hfst⟩ := List.mem_map.1 hmem
    have hkv2mem : kv2 ∈ keyslots := List.mem_of_mem_filter hkv2
    have hpri := List.of_mem_filter hkv2
    have heq := nodup_keys_entry_unique keyslots hnd kv2 kv hkv2mem hkv hfst
    rw [heq, hprio] at hpri
    exact absurd hpri (by decide)

/-- Closed witness for the Slots partition theorem at a concrete keyslot
map with one slot of each priority. -/
theorem slotsV2_partition_witness :
    slotsV2 [(0, ⟨"luks2", 32, some 2⟩), (1, ⟨"luks2", 32, some 0⟩), (2, ⟨"luks2", 32, some 1⟩)]
      = slotsV2High [(0, ⟨"luks2", 32, some 2⟩), (1, ⟨"luks2", 32, some 0⟩), (2, ⟨"luks2", 32, some 1⟩)]
        ++ slotsV2Norm [(0, ⟨"luks2", 32, some 2⟩), (1, ⟨"luks2", 32, some 0⟩), (2, ⟨"luks2", 32, some 1⟩)] :=
  (slotsV2_partition
    [(0, ⟨"luks2", 32, some 2⟩), (1, ⟨"luks2", 32, some 0⟩), (2, ⟨"luks2", 32, some 1⟩)]
    (by decide)).1

/-- C8: the digest comparison in both unseal paths is `bytes.Equal`, whose
comparison walks the slices and stops at the first differing byte.
Comparing one generated 32-byte digest against two unequal stored digests —
one differing at the first byte, one only at the last — probes 1 versus 32
byte positions, so the comparison's running time depends on the position of
the first mismatch: it is not a constant-time compare. -/
theorem bytesEqual_digest_compare_short_circuits :
    (bytesEqualSteps (List.replicate 32 0) (1 :: List.replicate 31 0)).2 = false ∧
    (bytesEqualSteps (List.replicate 32 0) (List.replicate 31 0 ++ [1])).2 = false ∧
    (bytesEqualSteps (List.replicate 32 0) (1 :: List.replicate 31 0)).1 = 1 ∧
    (bytesEqualSteps (List.replicate 32 0) (List.replicate 31 0 ++ [1])).1 = 32 := by
  refine ⟨by decide, by decide, by decide, by decide⟩

/-- The `digest` record of the LUKS2 JSON metadata. -/
structure digestRec where
  type : String
  hash : String
  iterations : Nat
  salt : String
  digest : String
deriving DecidableEq, Inhabited

/-- Outcome of the LUKS2 digest-verification step. -/
inductive v2VerifyResult where
  | errSalt
  | errKdfType (kdfType : String)
  | errHash (hash : String)
  | errDigestB64
  | panicSliceBounds
  | mismatch
  | matched
deriving DecidableEq

/-- The digest-verification step of `deviceV2.UnsealVolume`
(`computeDigestForKey` followed by the `generatedDigest[0:len(expectedDigest)]`
comparison).  `computeDigestForKey` runs PBKDF2 with requested length
`size = registry(digest.hash).size` and `prf = HMAC(digest.hash, finalKey)`;
the Go value `generatedDigest` is the slice `dk[:size]` over a backing
array of `ceil(size/hashLen)·hashLen = size` bytes, and the slice expression
`generatedDigest[0:L]` panics exactly when `L` exceeds that capacity,
otherwise it denotes the first `L` bytes of the backing array. -/
def luks2VerifyDigest (b64 : String → Option (List Nat))
    (hmacF : String → List Nat → List Nat → List Nat)
    (dig : digestRec) (finalKey : List Nat) : v2VerifyResult :=
  match b64 dig.salt with
  | none => .errSalt
  | some digSalt =>
    if dig.type = "pbkdf2" then
      match getHashAlgoSize dig.hash with
      | none => .errHash dig.hash
      | some size =>
        let generatedFull := pbkdf2Full (hmacF dig.hash finalKey) size digSalt dig.iterations size
        match b64 dig.digest with
        | none => .errDigestB64
        | some expectedDigest =>
          if expectedDigest.length > generatedFull.length then .panicSliceBounds
          else if bytesEqual (generatedFull.take expectedDigest.length) expectedDigest then .matched
          else .mismatch
    else .errKdfType dig.type

theorem getHashAlgoSize_ge_20 (name : String) (sz : Nat)
    (h : getHashAlgoSize name = some sz) : 20 ≤ sz := by
  unfold getHashAlgoSize at h
  split at h <;> first
    | (injection h with h; omega)
    | cases h

theorem two_n_sub_one_div (n : Nat) (hn : 1 ≤ n) : (n + n - 1) / n = 1 := by
  rw [show n + n - 1 = n * 1 + (n - 1) by omega, Nat.mul_add_div (by omega)]
  simp [Nat.div_eq_of_lt (by omega : n - 1 < n)]

/-- C9: the LUKS2 digest verification slices the generated PBKDF2 output as
`generated[0:len(stored)]`; since the generated digest is requested with
length `registry(digest.hash).size` (making the backing array exactly that
long), the slice stays in bounds — and the step completes with a match or
mismatch — precisely when the base64-decoded stored digest is no longer
than `registry(digest.hash).size`; a longer stored digest drives the prefix
access past the generated digest and the step panics. -/
theorem luks2VerifyDigest_inbounds_iff (b64 : String → Option (List Nat))
    (hmacF : String → List Nat → List Nat → List Nat)
    (dig : digestRec) (finalKey digSalt expected : List Nat) (size : Nat)
    (hsalt : b64 dig.salt = some digSalt)
    (htype : dig.type = "pbkdf2")
    (hsize : getHashAlgoSize dig.hash = some size)
    (hprf : ∀ m, (hmacF dig.hash finalKey m).length = size)
    (hdig : b64 dig.digest = some expected) :
    (expected.length ≤ size →
      luks2VerifyDigest b64 hmacF dig finalKey ≠ .panicSliceBounds) ∧
    (size < expected.length →
      luks2VerifyDigest b64 hmacF dig finalKey = .panicSliceBounds) := by
  have hszpos : 1 ≤ size := by
    have := getHashAlgoSize_ge_20 _ _ hsize
    omega
  have hfull : (pbkdf2Full (hmacF dig.hash finalKey) size digSalt dig.iterations size).length
      = size := by
    rw [pbkdf2Full_length _ _ _ _ _ hprf, two_n_sub_one_div size hszpos, Nat.one_mul]
  simp only [luks2VerifyDigest, hsalt, hsize, hdig]
  rw [if_pos htype]
  constructor
  · intro hle
    rw [if_neg (by rw [hfull]; omega)]
    split
    · intro habs; cases habs
    · intro habs; cases habs
  · intro hgt
    rw [if_pos (by rw [hfull]; omega)]

/-- Closed witness: a sha256 digest record whose stored digest decodes to 33
bytes (one more than the generated 32) makes the verification step hit the
out-of-range slice. -/
theorem luks2VerifyDigest_inbounds_iff_witness :
    luks2VerifyDigest
      (fun s => if s = "DGST" then some (List.replicate 33 0) else some (List.replicate 32 1))
      (fun _ _ _ => List.replicate 32 0)
      { type := "pbkdf2", hash := "sha256", iterations := 1, salt := "SALT", digest := "DGST" }
      [1, 2, 3, 4]
      = .panicSliceBounds :=
  (luks2VerifyDigest_inbounds_iff
    (fun s => if s = "DGST" then some (List.replicate 33 0) else some (List.replicate 32 1))
    (fun _ _ _ => List.replicate 32 0)
    { type := "pbkdf2", hash := "sha256", iterations := 1, salt := "SALT", digest := "DGST" }
    [1, 2, 3, 4] (List.replicate 32 1) (List.replicate 33 0) 32
    (by decide) rfl rfl (fun _ => rfl) (by decide)).2 (by decide)

/-- Outcome of the LUKS1 master-key digest verification step. -/
inductive v1VerifyResult where
  | panicSliceBounds
  | mismatch
  | matched
deriving DecidableEq

/-- The digest-verification step of `deviceV1.UnsealVolume`:
`generatedDigest = pbkdf2.Key(finalKey, hdr.MkDigestSalt, hdr.MkDigestIter,
hdr.KeyBytes, h)` followed by
`bytes.Equal(generatedDigest[:20], hdr.MkDigest)`.  `prf` is HMAC(h) keyed
with the candidate master key and `hashLen` its digest size.  The Go value
`generatedDigest` is the slice `dk[:KeyBytes]` over a backing array of
`ceil(KeyBytes/hashLen)·hashLen` bytes; `generatedDigest[:20]` panics
exactly when 20 exceeds that capacity, otherwise it denotes the first 20
bytes of the backing array. -/
def luks1VerifyMkDigest (prf : List Nat → List Nat) (hashLen : Nat)
    (hdr : headerV1) : v1VerifyResult :=
  let generatedFull := pbkdf2Full prf hashLen hdr.mkDigestSalt hdr.mkDigestIter hdr.keyBytes
  if 20 > generatedFull.length then .panicSliceBounds
  else if bytesEqual (generatedFull.take 20) hdr.mkDigest then .matched
  else .mismatch

/-- A LUKS1 header with `KeyBytes = 16 < 20` (sha256 hash spec, one
digest iteration, all-zero digest fields). -/
def luks1ShortKeyHeader : headerV1 :=
  { magic := [76, 85, 75, 83, 186, 190]
    version := 1
    cipherName := [97, 101, 115] ++ List.replicate 29 0
    cipherMode := [120, 116, 115, 45, 112, 108, 97, 105, 110, 54, 52] ++ List.replicate 21 0
    hashSpec := [115, 104, 97, 50, 53, 54] ++ List.replicate 26 0
    payloadOffset := 4096
    keyBytes := 16
    mkDigest := List.replicate 20 0
    mkDigestSalt := List.replicate 32 0
    mkDigestIter := 1
    uuid := List.replicate 40 0
    keySlots := List.replicate 8 ⟨0xAC71F3, 1000, List.replicate 32 0, 8, 4000⟩ }

/-- C10 counterexample: with `KeyBytes = 16 < 20` and a 32-byte PRF
(HMAC-SHA256), `pbkdf2.Key` builds one 32-byte block, so the returned
16-byte slice has capacity 32 and `generated[:20]` stays within capacity:
the verification completes normally rather than going out of bounds, so the
precondition `key_bytes ≥ 20` is not required for totality. -/
theorem luks1VerifyMkDigest_short_key_total :
    luks1ShortKeyHeader.keyBytes < 20 ∧
    luks1VerifyMkDigest (fun _ => List.replicate 32 0) 32 luks1ShortKeyHeader
      = .matched := by
  exact ⟨by decide, by decide⟩

/-- C10 (amended): the generated LUKS1 master-key digest has logical length
exactly `KeyBytes` (so for `KeyBytes < 20` the 20-byte prefix exceeds the
digest's logical length), but the slice expression `generated[:20]` is
bounded by the backing capacity `ceil(KeyBytes/hashLen)·hashLen`, not the
logical length: the step is total whenever `KeyBytes ≥ 20`, and also for
every `KeyBytes ≥ 1` when the hash's digest size is at least 20 (true of
every registry hash); it goes out of bounds when `KeyBytes = 0`. -/
theorem luks1VerifyMkDigest_bounds (prf : List Nat → List Nat) (hashLen : Nat)
    (hdr : headerV1) (hprf : ∀ x, (prf x).length = hashLen) :
    (1 ≤ hashLen →
      (pbkdf2Key prf hashLen hdr.mkDigestSalt hdr.mkDigestIter hdr.keyBytes).length
        = hdr.keyBytes) ∧
    (20 ≤ hdr.keyBytes → 1 ≤ hashLen →
      luks1VerifyMkDigest prf hashLen hdr ≠ .panicSliceBounds) ∧
    (1 ≤ hdr.keyBytes → 20 ≤ hashLen →
      luks1VerifyMkDigest prf hashLen hdr ≠ .panicSliceBounds) ∧
    (hdr.keyBytes = 0 → luks1VerifyMkDigest prf hashLen hdr = .panicSliceBounds) := by
  have hfull : (pbkdf2Full prf hashLen hdr.mkDigestSalt hdr.mkDigestIter hdr.keyBytes).length
      = (hdr.keyBytes + hashLen - 1) / hashLen * hashLen :=
    pbkdf2Full_length _ _ _ _ _ hprf
  refine ⟨fun hl => pbkdf2Key_length _ _ _ _ _ hl hprf, ?_, ?_, ?_⟩
  · intro hkb hl
    simp only [luks1VerifyMkDigest]
    rw [if_neg (by
      rw [hfull]
      have := ceil_div_mul_ge hdr.keyBytes hashLen hl
      omega)]
    split
    · intro habs; cases habs
    · intro habs; cases habs
  · intro hkb hl
    have hone : 1 ≤ (hdr.keyBytes + hashLen - 1) / hashLen := by
      rw [Nat.le_div_iff_mul_le (by omega : 0 < hashLen)]
      omega
    simp only [luks1VerifyMkDigest]
    rw [if_neg (by
      rw [hfull]
      have : 1 * hashLen ≤ (hdr.keyBytes + hashLen - 1) / hashLen * hashLen :=
        Nat.mul_le_mul_right hashLen hone
      omega)]
    split
    · intro habs; cases habs
    · intro habs; cases habs
  · intro hkb
    have h0 : (hdr.keyBytes + hashLen - 1) / hashLen = 0 := by
      rw [hkb]
      match hashLen with
      | 0 => rfl
      | n + 1 => exact Nat.div_eq_of_lt (by omega)
    simp only [luks1VerifyMkDigest]
    rw [if_pos (by rw [hfull, h0]; omega)]

/-- Closed witness: with a 32-byte PRF and `KeyBytes = 32 ≥ 20` the LUKS1
digest verification cannot hit the out-of-range slice. -/
theorem luks1VerifyMkDigest_bounds_witness :
    luks1VerifyMkDigest (fun _ => List.replicate 32 0) 32 luks1DisabledSlotHeader
      ≠ .panicSliceBounds :=
  (luks1VerifyMkDigest_bounds (fun _ => List.replicate 32 0) 32 luks1DisabledSlotHeader
    (fun _ => rfl)).2.1 (by decide) (by decide)

/-- Big-endian integer value of a byte sequence (`binary.BigEndian.Uint64`
when given 8 bytes). -/
def beNat (bytes : List Nat) : Nat :=
  bytes.foldl (fun a b => a * 256 + b) 0

/-- Minimal typed view of the parsed LUKS2 JSON metadata (keyslot map as an
association list in iteration order, digests, config flags); the JSON
decoder itself is external and enters as a parameter. -/
structure metadata where
  keyslots : List (Nat × keyslotV2)
  digests : List (Nat × digestRec)
  flags : List String
deriving DecidableEq, Inhabited

/-- Errors (and the one panic) of `initV2Device`. -/
inductive v2InitError where
  | errReadHeader
  | errHeaderSize
  | errReadFull
  | errChecksumAlgo (algo : String)
  | errChecksum
  | panicSliceBounds
  | errJson
deriving DecidableEq

/-- Successful result of `initV2Device`: the accepted header size and the
decoded metadata. -/
structure parsedV2 where
  headerSize : Nat
  meta : metadata
deriving DecidableEq, Inhabited

/-- The `HeaderSize` field: big-endian u64 at bytes 8..16 of the header. -/
def v2HeaderSizeField (file : List Nat) : Nat :=
  beNat ((file.drop 8).take 8)

/-- The first `hdrSize` header bytes with the 64-byte checksum field
(offset 448) zeroed — the input of the header checksum. -/
def v2ZeroedHeader (file : List Nat) (hdrSize : Nat) : List Nat :=
  (file.take hdrSize).take 448 ++ List.replicate 64 0 ++ (file.take hdrSize).drop 512

/-- The stored checksum compared by the reader: the 64-byte checksum field
truncated to sha256's 32 bytes (`hdr.Checksum[:h.Size()]`). -/
def v2StoredChecksum (file : List Nat) : List Nat :=
  ((file.drop 448).take 64).take 32

/-- The function `initV2Device` from luks2.go over the device's bytes: read the 512-byte
binary header struct, validate `HeaderSize` (power of two in
[16384, 4194304]), read the whole header, zero the checksum field, require
the checksum algorithm to be "sha256", compare `sha256(zeroed header)`
against the stored checksum over 32 bytes, cut the JSON region
`data[4096:]` at its first NUL — Go panics on `jsonData[:-1]` when
`bytes.IndexByte` finds none — and hand it to the JSON decoder.
`sha256F` and `jsonParse` are the external primitives. -/
def initV2Device (sha256F : List Nat → List Nat)
    (jsonParse : List Nat → Option metadata) (file : List Nat) :
    Except v2InitError parsedV2 :=
  if file.length < 512 then .error .errReadHeader
  else
    let hdrSize := v2HeaderSizeField file
    if ¬ (isPowerOfTwo hdrSize = true) ∨ hdrSize < 16384 ∨ hdrSize > 4194304 then
      .error .errHeaderSize
    else if file.length < hdrSize then .error .errReadFull
    else
      let data := file.take hdrSize
      let algo := fixedArrayToString ((file.drop 72).take 32)
      if algo = "sha256" then
        let checksum := sha256F (v2ZeroedHeader file hdrSize)
        if bytesEqual checksum (v2StoredChecksum file) then
          let jsonData := data.drop 4096
          match indexByte0 jsonData with
          | none => .error .panicSliceBounds
          | some idx =>
            match jsonParse (jsonData.take idx) with
            | none => .error .errJson
            | some meta => .ok ⟨hdrSize, meta⟩
        else .error .errChecksum
      else .error (.errChecksumAlgo algo)

/-- C4: every header the LUKS2 parser accepts has a power-of-two
`HeaderSize` within [16384, 4194304], and sha256 of the header bytes with
the checksum field zeroed equals the stored checksum compared over exactly
32 bytes; contrapositively, a header failing any of these checks is never
accepted. -/
theorem initV2Device_accepts_only_valid (sha256F : List Nat → List Nat)
    (jsonParse : List Nat → Option metadata) (file : List Nat) (r : parsedV2)
    (h : initV2Device sha256F jsonParse file = .ok r) :
    r.headerSize = v2HeaderSizeField file ∧
    isPowerOfTwo r.headerSize = true ∧
    16384 ≤ r.headerSize ∧ r.headerSize ≤ 4194304 ∧
    sha256F (v2ZeroedHeader file r.headerSize) = v2StoredChecksum file := by
  simp only [initV2Device] at h
  by_cases h1 : file.length < 512
  · rw [if_pos h1] at h; cases h
  · rw [if_neg h1] at h
    by_cases h2 : ¬ (isPowerOfTwo (v2HeaderSizeField file) = true)
        ∨ v2HeaderSizeField file < 16384 ∨ v2HeaderSizeField file > 4194304
    · rw [if_pos h2] at h; cases h
    · rw [if_neg h2] at h
      by_cases h3 : file.length < v2HeaderSizeField file
      · rw [if_pos h3] at h; cases h
      · rw [if_neg h3] at h
        by_cases h4 : fixedArrayToString ((file.drop 72).take 32) = "sha256"
        · rw [if_pos h4] at h
          by_cases h5 : bytesEqual (sha256F (v2ZeroedHeader file (v2HeaderSizeField file)))
              (v2StoredChecksum file) = true
          · rw [if_pos h5] at h
            split at h
            · cases h
            · split at h
              · cases h
              · cases h
                push_neg at h2
                dsimp only
                refine ⟨rfl, h2.1, by omega, by omega, ?_⟩
                exact (bytesEqual_eq_true_iff _ _).1 h5
          · rw [if_neg h5] at h; cases h
        · rw [if_neg h4] at h; cases h

theorem drop_append_ge (l₁ l₂ : List Nat) (n : Nat) (h : l₁.length ≤ n) :
    (l₁ ++ l₂).drop n = l₂.drop (n - l₁.length) := by
  rw [List.drop_append_eq_append_drop, List.drop_eq_nil_of_le h, List.nil_append]

/-- The first 4096 bytes of a concrete LUKS2 test image: magic+version,
HeaderSize = 16384, checksum algorithm "sha256", a checksum field whose
first 32 bytes are sevens (matching the stub hash below), zeros elsewhere. -/
def v2TestHead : List Nat :=
  [76, 85, 75, 83, 186, 190, 0, 2] ++
    ([0, 0, 0, 0, 0, 0, 64, 0] ++
      (List.replicate 56 0 ++
        (([115, 104, 97, 50, 53, 54] ++ List.replicate 26 0) ++
          (List.replicate 344 0 ++
            ((List.replicate 32 7 ++ List.replicate 32 0) ++
              List.replicate 3584 0)))))

/-- Stub for the external sha256 primitive: a constant 32-byte digest. -/
def v2ShaStub : List Nat → List Nat := fun _ => List.replicate 32 7

/-- Stub for the external JSON decoder: accepts anything. -/
def v2ParseStub : List Nat → Option metadata := fun _ => some default

theorem v2TestHead_length : v2TestHead.length = 4096 := by
  unfold v2TestHead
  simp only [List.length_append, List.length_cons, List.length_nil, List.length_replicate]

theorem v2Test_headerSize (t : List Nat) :
    v2HeaderSizeField (v2TestHead ++ t) = 16384 := by
  unfold v2HeaderSizeField v2TestHead
  rw [List.append_assoc, drop_append_ge _ _ 8 (by simp)]
  simp only [List.length_cons, List.length_nil, Nat.sub_self, List.drop_zero]
  rw [List.append_assoc, List.take_left' (by simp)]
  decide

theorem v2Test_algo (t : List Nat) :
    fixedArrayToString (((v2TestHead ++ t).drop 72).take 32) = "sha256" := by
  unfold v2TestHead
  rw [List.append_assoc, drop_append_ge _ _ 72 (by simp)]
  simp only [List.length_cons, List.length_nil]
  rw [List.append_assoc, drop_append_ge _ _ (72 - 8) (by simp)]
  simp only [List.length_cons, List.length_nil]
  rw [List.append_assoc, drop_append_ge _ _ (72 - 8 - 8) (by simp)]
  simp only [List.length_replicate, Nat.sub_self, List.drop_zero]
  rw [List.append_assoc, List.take_left' (by simp)]
  decide

theorem drop_append_len (l₁ l₂ : List Nat) (n m k : Nat)
    (hm : l₁.length = m) (hk : n - m = k) (h : m ≤ n) :
    (l₁ ++ l₂).drop n = l₂.drop k := by
  rw [drop_append_ge _ _ _ (by omega), hm, hk]

theorem v2Test_stored (t : List Nat) :
    v2StoredChecksum (v2TestHead ++ t) = List.replicate 32 7 := by
  have h1 : ([76, 85, 75, 83, 186, 190, 0, 2] : List Nat).length = 8 := by simp
  have h2 : ([0, 0, 0, 0, 0, 0, 64, 0] : List Nat).length = 8 := by simp
  have h3 : (List.replicate 56 (0 : Nat)).length = 56 := List.length_replicate ..
  have h4 : (([115, 104, 97, 50, 53, 54] ++ List.replicate 26 0 : List Nat)).length = 32 := by
    rw [List.length_append, List.length_replicate]
    rfl
  have h5 : (List.replicate 344 (0 : Nat)).length = 344 := List.length_replicate ..
  have h6 : ((List.replicate 32 7 ++ List.replicate 32 0 : List Nat)).length = 64 := by
    rw [List.length_append, List.length_replicate, List.length_replicate]
  have h7 : (List.replicate 32 (7 : Nat)).length = 32 := List.length_replicate ..
  unfold v2StoredChecksum v2TestHead
  rw [List.append_assoc, drop_append_len _ _ 448 8 440 h1 (by norm_num) (by norm_num)]
  rw [List.append_assoc, drop_append_len _ _ 440 8 432 h2 (by norm_num) (by norm_num)]
  rw [List.append_assoc, drop_append_len _ _ 432 56 376 h3 (by norm_num) (by norm_num)]
  rw [List.append_assoc, drop_append_len _ _ 376 32 344 h4 (by norm_num) (by norm_num)]
  rw [List.append_assoc, drop_append_len _ _ 344 344 0 h5 (by norm_num) (by norm_num)]
  rw [List.drop_zero, List.append_assoc, List.take_left' h6, List.take_left' h7]

theorem v2Test_drop4096 (t : List Nat) : (v2TestHead ++ t).drop 4096 = t :=
  List.drop_left' v2TestHead_length

theorem v2Test_eval (t : List Nat) (ht : t.length = 12288) :
    initV2Device v2ShaStub v2ParseStub (v2TestHead ++ t)
      = match indexByte0 t with
        | none => .error .panicSliceBounds
        | some idx =>
          match v2ParseStub (t.take idx) with
          | none => .error .errJson
          | some meta => .ok ⟨16384, meta⟩ := by
  have hlen : (v2TestHead ++ t).length = 16384 := by
    rw [List.length_append, v2TestHead_length, ht]
  have hdata : ((v2TestHead ++ t).take 16384).drop 4096 = t := by
    rw [List.take_of_length_le (le_of_eq hlen), v2Test_drop4096]
  unfold initV2Device
  rw [v2Test_headerSize]
  rw [if_neg (by rw [hlen]; norm_num)]
  rw [if_neg (by decide)]
  rw [if_neg (by rw [hlen]; norm_num)]
  rw [v2Test_algo, if_pos rfl]
  rw [if_pos (by
    rw [v2Test_stored]
    show bytesEqual (List.replicate 32 7) (List.replicate 32 7) = true
    decide)]
  rw [hdata]

/-- A complete well-formed 16384-byte LUKS2 test image: valid magic, header
size, checksum (w.r.t. the stub hash), and an all-zero JSON region whose
first byte is already the NUL terminator. -/
def c4file : List Nat := v2TestHead ++ List.replicate 12288 0

/-- The parser accepts `c4file`. -/
theorem c4file_accepted :
    initV2Device v2ShaStub v2ParseStub c4file = .ok ⟨16384, default⟩ := by
  unfold c4file
  rw [v2Test_eval (List.replicate 12288 0) (List.length_replicate ..)]
  rfl

/-- Closed witness: the acceptance theorem applied to the accepted concrete
image `c4file`. -/
theorem initV2Device_accepts_only_valid_witness :
    (⟨16384, default⟩ : parsedV2).headerSize = v2HeaderSizeField c4file ∧
    isPowerOfTwo (⟨16384, default⟩ : parsedV2).headerSize = true ∧
    16384 ≤ (⟨16384, default⟩ : parsedV2).headerSize ∧
    (⟨16384, default⟩ : parsedV2).headerSize ≤ 4194304 ∧
    v2ShaStub (v2ZeroedHeader c4file (⟨16384, default⟩ : parsedV2).headerSize)
      = v2StoredChecksum c4file :=
  initV2Device_accepts_only_valid v2ShaStub v2ParseStub c4file ⟨16384, default⟩ c4file_accepted

/-- A LUKS2 image identical to `c4file` except that the whole JSON region
[4096, 16384) holds the byte 1 — no NUL terminator anywhere. -/
def c5file : List Nat := v2TestHead ++ List.replicate 12288 1

theorem indexByte0_replicate_ne (x : Nat) (hx : x ≠ 0) :
    ∀ n, indexByte0 (List.replicate n x) = none := by
  intro n
  induction n with
  | zero => rfl
  | succ n ih =>
      rw [List.replicate_succ]
      cases x with
      | zero => exact absurd rfl hx
      | succ y =>
          show (indexByte0 (List.replicate n (y + 1))).map (· + 1) = none
          rw [ih]
          rfl

/-- C5: a LUKS2 image whose binary header passes the magic, size and
checksum checks but whose JSON region [4096, HeaderSize) contains no NUL
byte does not make `initV2Device` return an InvalidHeader error: Go's
`bytes.IndexByte` yields -1 and the slice expression `jsonData[:-1]`
panics (modelled as the distinguished `panicSliceBounds` outcome). -/
theorem initV2Device_no_nul_panics :
    initV2Device v2ShaStub v2ParseStub c5file = .error .panicSliceBounds := by
  unfold c5file
  rw [v2Test_eval (List.replicate 12288 1) (List.length_replicate ..),
    indexByte0_replicate_ne 1 (by decide) 12288]
